import Mathlib

/-!
Verification of the bubble notification subsystem of the bird-pet
application: the priority message queue (`src/core/message-queue.ts`,
class `MessageQueue`) and the secondary-surface controller
(`src/core/bubble-manager.ts`, class `BubbleManager`).

The TypeScript classes are embedded shallowly: each mutable object
becomes a state record, each method a state-transformer returning the
updated record (plus, for the queue, the trace of entries handed to the
registered play handler).  The single-threaded JavaScript runtime lets
the async methods be modelled as functions that run to completion:
`await` points either resolve (success path) or reject, and a rejection
of the play handler is fed in through an explicit outcome oracle.
-/

namespace BirdPet

/-! ### Decimal rendering of a `Nat` is injective

`BubbleManager.displayMessage` mints message identities with the
template literal `bubble-${++this.messageSeq}`, i.e. the decimal
rendering of the incremented counter appended to a fixed prefix
(`Nat.repr` in the embedding).  The identity filtering in
`onBubbleDismissed` is sound only because distinct counter values
render to distinct strings, which we prove here by decoding the digit
list back to the number. -/

/-- Numeric value of a decimal digit character such as those produced
by the decimal branch of `Nat.digitChar`. -/
def digitVal (c : Char) : Nat := c.toNat - 48

/-- Decode a most-significant-first decimal digit list. -/
def decodeDigits (l : List Char) : Nat :=
  List.foldl (fun a c => 10 * a + digitVal c) 0 l

theorem digitVal_digitChar (d : Nat) (h : d < 10) :
    digitVal (Nat.digitChar d) = d := by
  interval_cases d <;> decide

theorem decodeDigits_toDigitsCore (fuel : Nat) : ∀ (n : Nat) (ds : List Char),
    n < fuel →
    decodeDigits (Nat.toDigitsCore 10 fuel n ds) =
      List.foldl (fun a c => 10 * a + digitVal c) n ds := by
  induction fuel with
  | zero => intro n ds h; omega
  | succ fuel ih =>
    intro n ds h
    rw [Nat.toDigitsCore]
    by_cases hdiv : n / 10 = 0
    · have hn : n < 10 := (Nat.div_eq_zero_iff (by omega)).mp hdiv
      simp only [hdiv, if_pos]
      simp only [decodeDigits, List.foldl_cons, Nat.mul_zero, Nat.zero_add]
      rw [digitVal_digitChar (n % 10) (Nat.mod_lt n (by omega)),
        Nat.mod_eq_of_lt hn]
    · have hn : 10 ≤ n := by
        by_contra hc
        exact hdiv (Nat.div_eq_of_lt (by omega))
      simp only [hdiv, if_neg, ite_false]
      rw [ih (n / 10) (Nat.digitChar (n % 10) :: ds)
        (lt_of_lt_of_le (Nat.div_lt_self (by omega) (by omega)) (by omega))]
      simp only [List.foldl_cons]
      rw [digitVal_digitChar (n % 10) (Nat.mod_lt n (by omega)),
        Nat.div_add_mod n 10]

theorem decodeDigits_toDigits (n : Nat) :
    decodeDigits (Nat.toDigits 10 n) = n := by
  have h := decodeDigits_toDigitsCore (n + 1) n [] (Nat.lt_succ_self n)
  simpa [Nat.toDigits] using h

theorem natRepr_injective : Function.Injective Nat.repr := by
  intro a b h
  have hlist : Nat.toDigits 10 a = Nat.toDigits 10 b := by
    have : (Nat.toDigits 10 a).asString = (Nat.toDigits 10 b).asString := h
    exact List.asString_inj.mp this
  calc a = decodeDigits (Nat.toDigits 10 a) := (decodeDigits_toDigits a).symm
    _ = decodeDigits (Nat.toDigits 10 b) := by rw [hlist]
    _ = b := decodeDigits_toDigits b

/-! ### Data model (`src/core/message-queue.ts`) -/

/-- `export type MessagePriority = 'low' | 'normal' | 'high'` -/
inductive MessagePriority where
  | low
  | normal
  | high
deriving DecidableEq, Repr

/-- `export interface BubbleMessage` — producer-supplied message with
optional duration and priority. -/
structure BubbleMessage where
  text : String
  duration : Option Nat := none
  priority : Option MessagePriority := none
deriving DecidableEq, Repr

/-- `export interface QueuedMessage` — internal entry with the defaults
already applied. -/
structure QueuedMessage where
  text : String
  duration : Nat
  priority : MessagePriority
deriving DecidableEq, Repr

/-- `const PRIORITY_WEIGHT: Record<MessagePriority, number> =
\x7b high: 3, normal: 2, low: 1 \x7d` -/
def PRIORITY_WEIGHT : MessagePriority → Nat
  | .high => 3
  | .normal => 2
  | .low => 1

/-- `const MAX_QUEUE_SIZE = 5` -/
def MAX_QUEUE_SIZE : Nat := 5

/-- `const DEFAULT_DURATION = 3000` -/
def DEFAULT_DURATION : Nat := 3000

/-- The comparator `(a, b) => PRIORITY_WEIGHT[b.priority] -
PRIORITY_WEIGHT[a.priority]` orders `a` at or before `b` exactly when
the weight of `b` does not exceed the weight of `a`. -/
def weightGe (a b : QueuedMessage) : Prop :=
  PRIORITY_WEIGHT b.priority ≤ PRIORITY_WEIGHT a.priority

instance : DecidableRel weightGe := fun a b =>
  inferInstanceAs (Decidable (PRIORITY_WEIGHT b.priority ≤ PRIORITY_WEIGHT a.priority))

/-- `this.queue.sort((a, b) => PRIORITY_WEIGHT[b.priority] -
PRIORITY_WEIGHT[a.priority])`: ECMAScript `Array.prototype.sort` is
required to be stable, and a stable sort for a total preorder has a
unique result, so the call is embedded as the stable insertion sort on
the descending-weight preorder. -/
def sortQ (l : List QueuedMessage) : List QueuedMessage :=
  List.insertionSort weightGe l

/-- State of a `MessageQueue` instance: the wait list `queue` and the
`_playing` flag.  The registered play handler is kept abstract; the
entries handed to it are returned as a trace, and whether each of its
promises fulfils or rejects is read from an outcome oracle. -/
structure MQ where
  queue : List QueuedMessage
  playing : Bool
deriving DecidableEq, Repr

namespace MessageQueue

/-- Result of running a queue method: the state after the synchronous
run to completion, the entries handed to the play handler in order, and
the unconsumed suffix of the outcome oracle. -/
structure Run where
  state : MQ
  played : List QueuedMessage
  outcomes : List Bool
deriving DecidableEq, Repr

/-- One outcome of an `await this.playHandler?.(msg)`: `true` when the
promise fulfils, `false` when it rejects.  An exhausted oracle means
the promise fulfils. -/
def takeOutcome : List Bool → Bool × List Bool
  | [] => (true, [])
  | b :: bs => (b, bs)

/-- `private async playNext(): Promise<void>` — skip when playing or
empty; otherwise sort by priority, shift the head, mark playing and
hand the head to the play handler; if the handler rejects, clear the
flag and immediately try the next entry (the `catch` block). -/
def playNext (outcomes : List Bool) (s : MQ) : Run :=
  if s.playing = true ∨ s.queue = [] then ⟨s, [], outcomes⟩
  else
    match hs : sortQ s.queue with
    | [] => ⟨s, [], outcomes⟩
    | msg :: rest =>
      let t := takeOutcome outcomes
      if t.1 then ⟨⟨rest, true⟩, [msg], t.2⟩
      else
        let r := playNext t.2 ⟨rest, false⟩
        ⟨r.state, msg :: r.played, r.outcomes⟩
termination_by s.queue.length
decreasing_by
  have hlen : (sortQ s.queue).length = s.queue.length :=
    (List.perm_insertionSort weightGe s.queue).length_eq
  rw [hs] at hlen
  simp only [List.length_cons] at hlen
  omega

/-- `done(): void` — clear the playing flag and advance. -/
def done (outcomes : List Bool) (s : MQ) : Run :=
  playNext outcomes ⟨s.queue, false⟩

/-- `clear(): void` — drop all waiting entries and clear the flag. -/
def clear (_s : MQ) : MQ := ⟨[], false⟩

/-- `private async forceNext(): Promise<void>` — set playing, sort,
shift; if the wait list was empty, reset the flag; otherwise hand the
head to the play handler, recovering from a rejection like `playNext`. -/
def forceNext (outcomes : List Bool) (s : MQ) : Run :=
  match sortQ s.queue with
  | [] => ⟨⟨[], false⟩, [], outcomes⟩
  | msg :: rest =>
    let t := takeOutcome outcomes
    if t.1 then ⟨⟨rest, true⟩, [msg], t.2⟩
    else
      let r := playNext t.2 ⟨rest, false⟩
      ⟨r.state, msg :: r.played, r.outcomes⟩

/-- `push(msg: BubbleMessage): void` — normalize defaults; `high` goes
to the front of the wait list and pre-empts when playing; `low` is
dropped when the wait list already holds `MAX_QUEUE_SIZE` entries;
otherwise append; finally start playback when idle. -/
def push (outcomes : List Bool) (s : MQ) (msg : BubbleMessage) : Run :=
  let priority := msg.priority.getD .normal
  let duration := msg.duration.getD DEFAULT_DURATION
  let queued : QueuedMessage := ⟨msg.text, duration, priority⟩
  if priority = .high then
    if s.playing = true then forceNext outcomes ⟨queued :: s.queue, true⟩
    else playNext outcomes ⟨queued :: s.queue, false⟩
  else
    if MAX_QUEUE_SIZE ≤ s.queue.length ∧ priority = .low then ⟨s, [], outcomes⟩
    else
      if s.playing = true then ⟨⟨s.queue ++ [queued], true⟩, [], outcomes⟩
      else playNext outcomes ⟨s.queue ++ [queued], false⟩

end MessageQueue

/-! ### The controller (`src/core/bubble-manager.ts`)

`BubbleManager` owns a `MessageQueue` whose registered play handler is
its own `displayMessage`, so the pair is embedded as one state record.
`displayMessage` is modelled on its success path (the awaited surface
operations resolve; `repositionBubble` swallows its own errors in the
source).  Observable side effects — `bubble:show` emissions, hide and
close attempts, `done()` invocations, listener releases — are recorded
in counters and traces so the theorems can count them. -/

structure Sys where
  /-- whether `this.bubbleWin` is non-null -/
  bubbleWin : Bool
  /-- whether `this.moveUnlisten` is non-null -/
  moveUnlisten : Bool
  /-- whether `this.dismissUnlisten` is non-null -/
  dismissUnlisten : Bool
  /-- the pending fallback timer, carrying the `messageId` its callback
  will pass to `onBubbleDismissed`; `none` when no timer is pending -/
  hideTimer : Option String
  /-- `private messageSeq = 0` -/
  messageSeq : Nat
  /-- `private currentMessageId = ''` -/
  currentMessageId : String
  /-- `MessageQueue.queue` -/
  queue : List QueuedMessage
  /-- `MessageQueue._playing` -/
  playing : Bool
  /-- `(messageId, text)` of each `bubble:show` emission, in order -/
  shown : List (String × String)
  /-- number of `this.bubbleWin?.hide()` attempts -/
  hideCalls : Nat
  /-- number of `this.queue.done()` invocations -/
  doneCalls : Nat
  /-- number of `this.bubbleWin?.close()` attempts -/
  closeAttempts : Nat
  /-- number of invocations of the move-listener release function -/
  moveReleaseCalls : Nat
  /-- number of invocations of the dismissal-listener release function -/
  dismissReleaseCalls : Nat
deriving DecidableEq, Repr

namespace BubbleManager

/-- The message identity minted by `displayMessage`: the template
literal `bubble-${++this.messageSeq}` with the counter already
incremented to `n`. -/
def mintId (n : Nat) : String := "bubble-" ++ Nat.repr n

/-- `private clearHideTimer(): void` — cancel the pending fallback
timer, if any. -/
def clearHideTimer (s : Sys) : Sys := { s with hideTimer := none }

/-- `private async displayMessage(msg: QueuedMessage)` — the queue's
registered play handler, on its success path: bail out when the
surface is gone, cancel any stale fallback timer, mint a fresh
`messageId`, record the `bubble:show` emission, and arm the fallback
timer for that id. -/
def displayMessage (s : Sys) (msg : QueuedMessage) : Sys :=
  if s.bubbleWin = false then s
  else
    let s := clearHideTimer s
    let seq := s.messageSeq + 1
    let id := mintId seq
    { s with
      messageSeq := seq
      currentMessageId := id
      shown := s.shown ++ [(id, msg.text)]
      hideTimer := some id }

/-- `MessageQueue.playNext` with `displayMessage` as the registered
play handler (which always resolves in this success-path model). -/
def playNextSys (s : Sys) : Sys :=
  if s.playing = true ∨ s.queue = [] then s
  else
    match sortQ s.queue with
    | [] => s
    | msg :: rest => displayMessage { s with queue := rest, playing := true } msg

/-- `MessageQueue.done` as invoked by the controller. -/
def doneSys (s : Sys) : Sys :=
  playNextSys { s with playing := false, doneCalls := s.doneCalls + 1 }

/-- `MessageQueue.forceNext` with `displayMessage` as the handler. -/
def forceNextSys (s : Sys) : Sys :=
  match sortQ s.queue with
  | [] => { s with queue := [], playing := false }
  | msg :: rest => displayMessage { s with queue := rest, playing := true } msg

/-- `private onBubbleDismissed(messageId: string): void` — the guard
`if (!messageId || messageId !== this.currentMessageId) return;`
followed by: cancel the fallback timer, attempt to hide the surface,
clear `currentMessageId`, and advance the queue via `done()`. -/
def onBubbleDismissed (s : Sys) (messageId : String) : Sys :=
  if messageId = "" ∨ messageId ≠ s.currentMessageId then s
  else
    doneSys
      { s with
        hideTimer := none
        hideCalls := s.hideCalls + (if s.bubbleWin = true then 1 else 0)
        currentMessageId := "" }

/-- Expiry of the pending fallback timer
(`setTimeout(() => this.onBubbleDismissed(messageId), totalMs)`):
fires only when a timer is pending, delivering the captured id. -/
def timerFire (s : Sys) : Sys :=
  match s.hideTimer with
  | none => s
  | some id => onBubbleDismissed s id

/-- `say(msg)` / `MessageQueue.push` with `displayMessage` as the
registered play handler. -/
def pushSys (s : Sys) (msg : BubbleMessage) : Sys :=
  let priority := msg.priority.getD .normal
  let duration := msg.duration.getD DEFAULT_DURATION
  let queued : QueuedMessage := ⟨msg.text, duration, priority⟩
  if priority = .high then
    if s.playing = true then forceNextSys { s with queue := queued :: s.queue }
    else playNextSys { s with queue := queued :: s.queue }
  else
    if MAX_QUEUE_SIZE ≤ s.queue.length ∧ priority = .low then s
    else
      if s.playing = true then { s with queue := s.queue ++ [queued] }
      else playNextSys { s with queue := s.queue ++ [queued] }

/-- `async dispose(): Promise<void>` — clear the queue, cancel the
fallback timer, clear `currentMessageId`, invoke each registered
listener release function (`this.moveUnlisten?.()`,
`this.dismissUnlisten?.()`), and attempt to close the surface with the
error swallowed.  The source never nulls `moveUnlisten`,
`dismissUnlisten` or `bubbleWin`, so those fields stay set. -/
def dispose (s : Sys) : Sys :=
  { s with
    queue := []
    playing := false
    hideTimer := none
    currentMessageId := ""
    moveReleaseCalls := s.moveReleaseCalls + (if s.moveUnlisten = true then 1 else 0)
    dismissReleaseCalls := s.dismissReleaseCalls + (if s.dismissUnlisten = true then 1 else 0)
    closeAttempts := s.closeAttempts + (if s.bubbleWin = true then 1 else 0) }

/-- The controller state right after `new BubbleManager()` and a
successful `init()`: surface created, both steady-state listeners
registered, nothing queued or shown yet. -/
def initialized : Sys :=
  ⟨true, true, true, none, 0, "", [], false, [], 0, 0, 0, 0, 0⟩

/-! #### Control flow of `init()`

`init()` registers the `bubble:ready` listener, creates the secondary
surface, awaits the `tauri://created` / `tauri://error` promise, and
only then enters the `try`/`finally` whose `finally` block invokes the
ready-listener's unsubscribe function.  The model takes the two
environment outcomes as parameters: whether surface creation succeeds
and whether `bubble:ready` arrives before `READY_TIMEOUT`. -/

inductive InitError where
  | surfaceCreationFailed
  | readyTimeout
deriving DecidableEq, Repr

/-- Observable outcome of one `init()` run. -/
structure InitRun where
  result : Except InitError Unit
  /-- how many times the `bubble:ready` unsubscribe function ran -/
  readyUnsubCalls : Nat
  /-- whether the `bubble:ready` listener was registered before the
  `WebviewWindow` was constructed -/
  readyListenerBeforeCreate : Bool
  /-- whether the steady-state move and dismissal listeners were
  registered by the end of the run -/
  steadyListeners : Bool
deriving Repr

/-- `async init(): Promise<void>`, by path.  The `await` of the
created/error promise sits before the `try`, so a creation failure
propagates out of `init()` without ever reaching the `finally` block
that releases the ready listener; on the two paths that reach the
`try`, the `finally` releases it exactly once. -/
def init (created ready : Bool) : InitRun :=
  if created = false then
    ⟨.error .surfaceCreationFailed, 0, true, false⟩
  else if ready = true then
    ⟨.ok (), 1, true, true⟩
  else
    ⟨.error .readyTimeout, 1, true, false⟩

end BubbleManager

/-! ### Properties of the priority sort -/

theorem weight_le_three (p : MessagePriority) : PRIORITY_WEIGHT p ≤ 3 := by
  cases p <;> decide

instance : IsTotal QueuedMessage weightGe :=
  ⟨fun a b => Nat.le_total (PRIORITY_WEIGHT b.priority) (PRIORITY_WEIGHT a.priority)⟩

instance : IsTrans QueuedMessage weightGe :=
  ⟨fun _ _ _ hab hbc => Nat.le_trans hbc hab⟩

theorem sortQ_perm (l : List QueuedMessage) : List.Perm (sortQ l) l :=
  List.perm_insertionSort weightGe l

theorem sortQ_length (l : List QueuedMessage) : (sortQ l).length = l.length :=
  (sortQ_perm l).length_eq

theorem sortQ_eq_nil_iff (l : List QueuedMessage) : sortQ l = [] ↔ l = [] := by
  constructor
  · intro h
    have := sortQ_length l
    rw [h] at this
    exact List.length_eq_zero.mp this.symm
  · intro h
    rw [h]
    rfl

theorem sortQ_sorted (l : List QueuedMessage) : List.Sorted weightGe (sortQ l) :=
  List.sorted_insertionSort weightGe l

theorem sortQ_of_sorted {l : List QueuedMessage} (h : List.Sorted weightGe l) :
    sortQ l = l :=
  h.insertionSort_eq

/-- A `high` entry unshifted to the front of the wait list stays at the
front of the stable descending sort: its weight 3 is maximal. -/
theorem sortQ_high_cons (q : QueuedMessage) (l : List QueuedMessage)
    (h : q.priority = .high) : sortQ (q :: l) = q :: sortQ l := by
  show List.orderedInsert weightGe q (sortQ l) = q :: sortQ l
  cases hl : sortQ l with
  | nil => rfl
  | cons y t =>
    have hy : weightGe q y := by
      show PRIORITY_WEIGHT y.priority ≤ PRIORITY_WEIGHT q.priority
      rw [h]
      exact weight_le_three y.priority
    simp [List.orderedInsert, hy]

/-- The head of the stable descending sort is the earliest entry of
maximal priority weight: it belongs to the list, no entry outweighs
it, and every entry strictly before it in arrival order has strictly
smaller weight. -/
theorem sortQ_head_spec : ∀ (l : List QueuedMessage) (m : QueuedMessage)
    (t : List QueuedMessage), sortQ l = m :: t →
    (∃ l1 l2, l = l1 ++ m :: l2 ∧
      ∀ x ∈ l1, PRIORITY_WEIGHT x.priority < PRIORITY_WEIGHT m.priority) ∧
    ∀ x ∈ l, PRIORITY_WEIGHT x.priority ≤ PRIORITY_WEIGHT m.priority := by
  intro l
  induction l with
  | nil => intro m t h; simp [sortQ, List.insertionSort] at h
  | cons a l ih =>
    intro m t h
    have ha : sortQ (a :: l) = List.orderedInsert weightGe a (sortQ l) := rfl
    cases hl : sortQ l with
    | nil =>
      have hle : l = [] := (sortQ_eq_nil_iff l).mp hl
      rw [ha, hl] at h
      simp [List.orderedInsert] at h
      refine ⟨⟨[], l, by simp [h.1], by simp⟩, ?_⟩
      intro x hx
      rw [hle] at hx
      simp at hx
      rw [hx, h.1]
    | cons y t' =>
      rw [ha, hl] at h
      by_cases hy : weightGe a y
      · rw [List.orderedInsert, if_pos hy] at h
        obtain ⟨rfl, _⟩ : a = m ∧ y :: t' = t := by
          constructor
          · exact (List.cons.injEq _ _ _ _ ▸ h).1
          · exact (List.cons.injEq _ _ _ _ ▸ h).2
        obtain ⟨_, hall⟩ := ih y t' hl
        refine ⟨⟨[], l, by simp, by simp⟩, ?_⟩
        intro x hx
        rcases List.mem_cons.mp hx with rfl | hxl
        · exact Nat.le_refl _
        · exact Nat.le_trans (hall x hxl) hy
      · rw [List.orderedInsert, if_neg hy] at h
        obtain ⟨rfl, _⟩ : y = m ∧ List.orderedInsert weightGe a t' = t := by
          constructor
          · exact (List.cons.injEq _ _ _ _ ▸ h).1
          · exact (List.cons.injEq _ _ _ _ ▸ h).2
        obtain ⟨⟨l1, l2, hdec, hstrict⟩, hall⟩ := ih y t' hl
        have haw : PRIORITY_WEIGHT y.priority > PRIORITY_WEIGHT a.priority := by
          have := Nat.lt_of_not_le (fun hc => hy hc)
          exact this
        refine ⟨⟨a :: l1, l2, by rw [hdec]; rfl, ?_⟩, ?_⟩
        · intro x hx
          rcases List.mem_cons.mp hx with rfl | hxl
          · exact haw
          · exact hstrict x hxl
        · intro x hx
          rcases List.mem_cons.mp hx with rfl | hxl
          · exact Nat.le_of_lt haw
          · exact hall x hxl

namespace MessageQueue

/-- Unfolding `playNext` when the guard fires. -/
theorem playNext_of_guard (outcomes : List Bool) (s : MQ)
    (h : s.playing = true ∨ s.queue = []) :
    playNext outcomes s = ⟨s, [], outcomes⟩ := by
  unfold playNext
  simp [h]

/-- Unfolding `playNext` when an entry is selected. -/
theorem playNext_step (outcomes : List Bool) (s : MQ) (msg : QueuedMessage)
    (rest : List QueuedMessage) (hp : s.playing = false)
    (hs : sortQ s.queue = msg :: rest) :
    playNext outcomes s =
      if (takeOutcome outcomes).1 then
        ⟨⟨rest, true⟩, [msg], (takeOutcome outcomes).2⟩
      else
        ⟨(playNext (takeOutcome outcomes).2 ⟨rest, false⟩).state,
          msg :: (playNext (takeOutcome outcomes).2 ⟨rest, false⟩).played,
          (playNext (takeOutcome outcomes).2 ⟨rest, false⟩).outcomes⟩ := by
  have hq : s.queue ≠ [] := by
    intro hnil
    rw [(sortQ_eq_nil_iff s.queue).mpr hnil] at hs
    exact List.noConfusion hs
  conv_lhs => unfold playNext
  rw [if_neg (by simp [hp, hq])]
  split
  · rename_i heq
    rw [hs] at heq
    exact List.noConfusion heq
  · rename_i msg' rest' heq
    rw [hs] at heq
    obtain ⟨rfl, rfl⟩ := List.cons.injEq _ _ _ _ ▸ heq
    rfl

/-- `playNext` never invents or loses entries: the remaining wait list
together with the entries handed to the play handler is a permutation
of the original wait list. -/
theorem playNext_perm_aux : ∀ (n : Nat) (outcomes : List Bool) (s : MQ),
    s.queue.length = n →
    List.Perm ((playNext outcomes s).state.queue ++ (playNext outcomes s).played)
      s.queue := by
  intro n
  induction n using Nat.strong_induction_on with
  | _ n ih =>
    intro outcomes s hlen
    by_cases hg : s.playing = true ∨ s.queue = []
    · rw [playNext_of_guard _ _ hg]
      simp
    · push_neg at hg
      obtain ⟨hp, hq⟩ := hg
      have hp' : s.playing = false := by
        cases hb : s.playing
        · rfl
        · exact absurd hb hp
      cases hs : sortQ s.queue with
      | nil => exact absurd ((sortQ_eq_nil_iff s.queue).mp hs) hq
      | cons msg rest =>
        have hrest : rest.length + 1 = n := by
          have := sortQ_length s.queue
          rw [hs] at this
          simp only [List.length_cons] at this
          omega
        rw [playNext_step outcomes s msg rest hp' hs]
        have hsq : List.Perm (msg :: rest) s.queue := hs ▸ sortQ_perm s.queue
        by_cases ht : (takeOutcome outcomes).1 = true
        · rw [if_pos ht]
          exact List.Perm.trans (List.perm_append_singleton msg rest) hsq
        · rw [if_neg ht]
          have hihm := ih rest.length (by omega) (takeOutcome outcomes).2
            ⟨rest, false⟩ rfl
          dsimp only
          refine List.Perm.trans List.perm_middle ?_
          exact List.Perm.trans (List.Perm.cons msg hihm) hsq

theorem playNext_perm (outcomes : List Bool) (s : MQ) :
    List.Perm ((playNext outcomes s).state.queue ++ (playNext outcomes s).played)
      s.queue :=
  playNext_perm_aux s.queue.length outcomes s rfl

/-- `forceNext` preserves the same conservation property. -/
theorem forceNext_perm (outcomes : List Bool) (s : MQ) :
    List.Perm ((forceNext outcomes s).state.queue ++ (forceNext outcomes s).played)
      s.queue := by
  unfold forceNext
  cases hs : sortQ s.queue with
  | nil =>
    simp [(sortQ_eq_nil_iff s.queue).mp hs]
  | cons msg rest =>
    have hsq : List.Perm (msg :: rest) s.queue := hs ▸ sortQ_perm s.queue
    dsimp only
    by_cases ht : (takeOutcome outcomes).1 = true
    · rw [if_pos ht]
      exact List.Perm.trans (List.perm_append_singleton msg rest) hsq
    · rw [if_neg ht]
      have hihm := playNext_perm (takeOutcome outcomes).2 ⟨rest, false⟩
      dsimp only
      refine List.Perm.trans List.perm_middle ?_
      exact List.Perm.trans (List.Perm.cons msg hihm) hsq

/-- When every play-handler promise rejects, the queue drains itself
completely — every waiting entry is attempted in priority order and the
queue ends idle and empty, rather than stalling. -/
theorem playNext_all_reject : ∀ (n : Nat) (s : MQ), s.playing = false →
    s.queue.length = n →
    playNext (List.replicate n false) s = ⟨⟨[], false⟩, sortQ s.queue, []⟩ := by
  intro n
  induction n with
  | zero =>
    intro s hp hlen
    have hq : s.queue = [] := List.length_eq_zero.mp hlen
    rw [playNext_of_guard _ _ (Or.inr hq)]
    cases s
    simp_all [sortQ, List.insertionSort]
  | succ n ih =>
    intro s hp hlen
    have hq : s.queue ≠ [] := by
      intro hnil
      rw [hnil] at hlen
      simp at hlen
    cases hs : sortQ s.queue with
    | nil => exact absurd ((sortQ_eq_nil_iff s.queue).mp hs) hq
    | cons msg rest =>
      have hrest : rest.length = n := by
        have := sortQ_length s.queue
        rw [hs] at this
        simp only [List.length_cons] at this
        omega
      rw [List.replicate_succ, playNext_step (false :: List.replicate n false) s msg rest hp hs]
      have htk : takeOutcome (false :: List.replicate n false) = (false, List.replicate n false) := rfl
      rw [htk]
      simp only [Bool.false_eq_true, if_false]
      have hsorted : List.Sorted weightGe rest := by
        have := sortQ_sorted s.queue
        rw [hs] at this
        exact this.of_cons
      have hr := ih ⟨rest, false⟩ rfl hrest
      simp only [sortQ_of_sorted hsorted] at hr
      rw [hr]

end MessageQueue

/-! ### Properties of the controller -/

namespace BubbleManager

/-- Distinct counter values mint distinct message identities. -/
theorem mintId_inj (a b : Nat) (h : mintId a = mintId b) : a = b := by
  have hdata : ("bubble-" : String).data ++ (Nat.repr a).data =
      ("bubble-" : String).data ++ (Nat.repr b).data := by
    have := congrArg String.data h
    simpa [mintId, String.data_append] using this
  have hrepr : (Nat.repr a).data = (Nat.repr b).data :=
    List.append_cancel_left hdata
  exact natRepr_injective (String.ext hrepr)

/-- A minted message identity is never the empty string, so it always
passes the `!messageId` part of the dismissal guard. -/
theorem mintId_ne_empty (n : Nat) : mintId n ≠ "" := by
  intro h
  have hdata : ("bubble-" : String).data ++ (Nat.repr n).data = [] := by
    have := congrArg String.data h
    simpa [mintId, String.data_append] using this
  have : ("bubble-" : String).data = [] := (List.append_eq_nil.mp hdata).1
  exact absurd this (by decide)

/-- `displayMessage` on a live surface, written out. -/
theorem displayMessage_spec (s : Sys) (msg : QueuedMessage) (hb : s.bubbleWin = true) :
    displayMessage s msg =
      { s with
        messageSeq := s.messageSeq + 1
        currentMessageId := mintId (s.messageSeq + 1)
        shown := s.shown ++ [(mintId (s.messageSeq + 1), msg.text)]
        hideTimer := some (mintId (s.messageSeq + 1)) } := by
  unfold displayMessage clearHideTimer
  rw [if_neg (by simp [hb])]

/-- `displayMessage` never touches the `done()` counter, the hide
counter, the surface flag, or the queue fields. -/
theorem displayMessage_frame (s : Sys) (msg : QueuedMessage) :
    (displayMessage s msg).doneCalls = s.doneCalls ∧
    (displayMessage s msg).hideCalls = s.hideCalls ∧
    (displayMessage s msg).bubbleWin = s.bubbleWin ∧
    (displayMessage s msg).queue = s.queue ∧
    (displayMessage s msg).playing = s.playing := by
  unfold displayMessage clearHideTimer
  by_cases hb : s.bubbleWin = false <;> simp [hb]

/-- `playNextSys` preserves the effect counters and the surface flag. -/
theorem playNextSys_frame (s : Sys) :
    (playNextSys s).doneCalls = s.doneCalls ∧
    (playNextSys s).hideCalls = s.hideCalls ∧
    (playNextSys s).bubbleWin = s.bubbleWin := by
  unfold playNextSys
  by_cases hg : s.playing = true ∨ s.queue = []
  · simp [hg]
  · rw [if_neg hg]
    cases hsq : sortQ s.queue with
    | nil => simp
    | cons msg rest =>
      have := displayMessage_frame { s with queue := rest, playing := true } msg
      simp_all

/-- After `playNextSys`, `currentMessageId` is either untouched or the
identity freshly minted for the next session. -/
theorem playNextSys_current (s : Sys) :
    (playNextSys s).currentMessageId = s.currentMessageId ∨
    (playNextSys s).currentMessageId = mintId (s.messageSeq + 1) := by
  unfold playNextSys
  by_cases hg : s.playing = true ∨ s.queue = []
  · simp [hg]
  · rw [if_neg hg]
    cases hsq : sortQ s.queue with
    | nil => simp
    | cons msg rest =>
      unfold displayMessage clearHideTimer
      by_cases hb : s.bubbleWin = false <;> simp [hb]

/-- After `playNextSys`, the pending fallback timer is either untouched
or armed for the freshly minted identity. -/
theorem playNextSys_hideTimer (s : Sys) :
    (playNextSys s).hideTimer = s.hideTimer ∨
    (playNextSys s).hideTimer = some (mintId (s.messageSeq + 1)) := by
  unfold playNextSys
  by_cases hg : s.playing = true ∨ s.queue = []
  · simp [hg]
  · rw [if_neg hg]
    cases hsq : sortQ s.queue with
    | nil => simp
    | cons msg rest =>
      unfold displayMessage clearHideTimer
      by_cases hb : s.bubbleWin = false <;> simp [hb]

/-- `playNextSys` never decreases the identity counter. -/
theorem playNextSys_seq (s : Sys) :
    s.messageSeq ≤ (playNextSys s).messageSeq := by
  unfold playNextSys
  by_cases hg : s.playing = true ∨ s.queue = []
  · simp [hg]
  · rw [if_neg hg]
    cases hsq : sortQ s.queue with
    | nil => simp
    | cons msg rest =>
      unfold displayMessage clearHideTimer
      by_cases hb : s.bubbleWin = false <;> simp [hb]

/-- An accepted dismissal, written out: cancel the timer, attempt the
hide, clear the identity, then advance the queue through `done()`. -/
theorem onBubbleDismissed_accept (s : Sys) (id : String) (hne : id ≠ "")
    (hcur : id = s.currentMessageId) :
    onBubbleDismissed s id =
      doneSys
        { s with
          hideTimer := none
          hideCalls := s.hideCalls + (if s.bubbleWin = true then 1 else 0)
          currentMessageId := "" } := by
  unfold onBubbleDismissed
  rw [if_neg (by push_neg; exact ⟨hne, hcur⟩)]

/-- A dismissal that fails the guard is a strict no-op. -/
theorem onBubbleDismissed_noop (s : Sys) (id : String)
    (h : id = "" ∨ id ≠ s.currentMessageId) :
    onBubbleDismissed s id = s := by
  unfold onBubbleDismissed
  rw [if_pos h]

/-- An accepted dismissal calls `done()` exactly once, and afterwards
the dismissed identity matches neither `currentMessageId` nor the
pending fallback timer, provided the dismissed identity was minted no
later than the current counter value. -/
theorem onBubbleDismissed_accept_once (s : Sys) (k : Nat) (hk : k ≤ s.messageSeq)
    (hne : mintId k ≠ "") (hcur : mintId k = s.currentMessageId) :
    (onBubbleDismissed s (mintId k)).doneCalls = s.doneCalls + 1 ∧
    (onBubbleDismissed s (mintId k)).currentMessageId ≠ mintId k ∧
    (onBubbleDismissed s (mintId k)).hideTimer ≠ some (mintId k) := by
  rw [onBubbleDismissed_accept s (mintId k) hne hcur]
  set s1 : Sys :=
    { s with
      hideTimer := none
      hideCalls := s.hideCalls + (if s.bubbleWin = true then 1 else 0)
      currentMessageId := "" } with hs1
  set s2 : Sys := { s1 with playing := false, doneCalls := s1.doneCalls + 1 } with hs2
  have hseq2 : s2.messageSeq = s.messageSeq := rfl
  refine ⟨?_, ?_, ?_⟩
  · have := (playNextSys_frame s2).1
    unfold doneSys
    rw [this]
  · unfold doneSys
    rcases playNextSys_current s2 with hcc | hcc
    · rw [hcc]
      intro hcontra
      exact hne hcontra.symm
    · rw [hcc, hseq2]
      intro hcontra
      have := mintId_inj _ _ hcontra
      omega
  · unfold doneSys
    rcases playNextSys_hideTimer s2 with hcc | hcc
    · rw [hcc]
      intro hcontra
      exact Option.noConfusion hcontra
    · rw [hcc, hseq2]
      intro hcontra
      have := mintId_inj _ _ (Option.some.injEq _ _ ▸ hcontra)
      omega

/-- An accepted dismissal bumps the `done()` counter by exactly one. -/
theorem onBubbleDismissed_doneCalls_accept (s : Sys) (id : String) (hne : id ≠ "")
    (hcur : id = s.currentMessageId) :
    (onBubbleDismissed s id).doneCalls = s.doneCalls + 1 := by
  rw [onBubbleDismissed_accept s id hne hcur]
  unfold doneSys
  rw [(playNextSys_frame _).1]

/-- An accepted dismissal on a live surface attempts exactly one hide. -/
theorem onBubbleDismissed_hideCalls_accept (s : Sys) (id : String) (hne : id ≠ "")
    (hcur : id = s.currentMessageId) (hb : s.bubbleWin = true) :
    (onBubbleDismissed s id).hideCalls = s.hideCalls + 1 := by
  rw [onBubbleDismissed_accept s id hne hcur]
  unfold doneSys
  rw [(playNextSys_frame _).2.1]
  simp [hb]

end BubbleManager

section Claims

open MessageQueue BubbleManager

/-- C9: a `bubble:dismissed` event carrying the empty string is always
a strict no-op — even in the idle state where `currentMessageId` is
also empty — so `done()` is never invoked and the surface is never
hidden by an empty-id dismissal. -/
theorem C9_empty_id_dismissal_noop (s : Sys) :
    onBubbleDismissed s "" = s ∧
    (onBubbleDismissed s "").doneCalls = s.doneCalls ∧
    (onBubbleDismissed s "").hideCalls = s.hideCalls := by
  have h : onBubbleDismissed s "" = s := onBubbleDismissed_noop s "" (Or.inl rfl)
  exact ⟨h, by rw [h], by rw [h]⟩

/-- C1 counterexample: in the idle post-`init()` state the controller's
`currentMessageId` is the empty string, so a dismissal carrying the
empty string has `messageId` equal to `currentMessageId`; yet it is not
accepted — the state is unchanged and `done()` is never invoked —
refuting the claimed "if and only if". -/
theorem C1_counterexample :
    "" = initialized.currentMessageId ∧
    onBubbleDismissed initialized "" = initialized ∧
    (onBubbleDismissed initialized "").doneCalls = initialized.doneCalls := by
  refine ⟨rfl, ?_, ?_⟩ <;> decide

/-- C1 amended: a `bubble:dismissed` acknowledgment is accepted —
`done()` invoked, and the surface hidden when it exists — if and only
if its `messageId` is non-empty AND equals `currentMessageId`; any
acknowledgment failing that guard (empty id or mismatched id) leaves
the entire controller state unchanged. -/
theorem C1_dismissal_accepted_iff_nonempty_match (s : Sys) (id : String) :
    ((onBubbleDismissed s id).doneCalls = s.doneCalls + 1 ↔
      id ≠ "" ∧ id = s.currentMessageId) ∧
    (id ≠ "" → id = s.currentMessageId → s.bubbleWin = true →
      (onBubbleDismissed s id).hideCalls = s.hideCalls + 1) ∧
    (id = "" ∨ id ≠ s.currentMessageId → onBubbleDismissed s id = s) := by
  refine ⟨⟨?_, ?_⟩, ?_, ?_⟩
  · intro hdone
    by_cases hg : id = "" ∨ id ≠ s.currentMessageId
    · rw [onBubbleDismissed_noop s id hg] at hdone
      omega
    · push_neg at hg
      exact hg
  · intro ⟨hne, hcur⟩
    exact onBubbleDismissed_doneCalls_accept s id hne hcur
  · intro hne hcur hb
    exact onBubbleDismissed_hideCalls_accept s id hne hcur hb
  · intro hg
    exact onBubbleDismissed_noop s id hg

/-- C3: the claim that `init()` releases the `bubble:ready` listener on
every exit path fails on the surface-creation-failure path: the await
of the created/error promise sits before the `try`/`finally`, so when
creation fails `init()` rejects with the listener still registered
(zero unsubscribe calls); the success and timeout paths do release it
exactly once. -/
theorem C3_init_ready_release_paths :
    (init true true).result = .ok () ∧
    (init true true).readyUnsubCalls = 1 ∧
    (init true false).result = .error .readyTimeout ∧
    (init true false).readyUnsubCalls = 1 ∧
    (init false true).result = .error .surfaceCreationFailed ∧
    (init false true).readyUnsubCalls = 0 ∧
    (init false false).readyUnsubCalls = 0 :=
  ⟨rfl, rfl, rfl, rfl, rfl, rfl, rfl⟩

/-- C4 counterexample: on the post-`init()` state, two `dispose()`
calls make two surface-close attempts and invoke each listener release
function twice — not once as claimed — because `dispose` never nulls
`bubbleWin`, `moveUnlisten` or `dismissUnlisten`. -/
theorem C4_counterexample :
    (dispose (dispose initialized)).closeAttempts = 2 ∧
    (dispose (dispose initialized)).moveReleaseCalls = 2 ∧
    (dispose (dispose initialized)).dismissReleaseCalls = 2 := by
  refine ⟨?_, ?_, ?_⟩ <;> decide

/-- C4 amended: each `dispose()` call on an initialized manager makes
one surface-close attempt and one release call per registered listener,
so two calls in sequence make two close attempts and two releases per
listener; every call still clears the queue, the fallback timer and
`currentMessageId`. -/
theorem C4_double_dispose_double_release (s : Sys) (hw : s.bubbleWin = true)
    (hm : s.moveUnlisten = true) (hd : s.dismissUnlisten = true) :
    (dispose s).closeAttempts = s.closeAttempts + 1 ∧
    (dispose s).moveReleaseCalls = s.moveReleaseCalls + 1 ∧
    (dispose s).dismissReleaseCalls = s.dismissReleaseCalls + 1 ∧
    (dispose (dispose s)).closeAttempts = s.closeAttempts + 2 ∧
    (dispose (dispose s)).moveReleaseCalls = s.moveReleaseCalls + 2 ∧
    (dispose (dispose s)).dismissReleaseCalls = s.dismissReleaseCalls + 2 ∧
    (dispose (dispose s)).queue = [] ∧
    (dispose (dispose s)).playing = false ∧
    (dispose (dispose s)).hideTimer = none ∧
    (dispose (dispose s)).currentMessageId = "" := by
  unfold dispose
  simp [hw, hm, hd]

/-- C4 witness: the amended statement at the concrete post-`init()`
state. -/
theorem C4_witness :
    (dispose (dispose initialized)).closeAttempts = initialized.closeAttempts + 2 :=
  (C4_double_dispose_double_release initialized rfl rfl rfl).2.2.2.1

end Claims

namespace MessageQueue

/-- Whatever the handler outcomes, the first entry handed out by
`playNext` is the head of the sorted wait list. -/
theorem playNext_played_head (outcomes : List Bool) (s : MQ) (msg : QueuedMessage)
    (rest : List QueuedMessage) (hp : s.playing = false)
    (hs : sortQ s.queue = msg :: rest) :
    (playNext outcomes s).played.head? = some msg := by
  rw [playNext_step outcomes s msg rest hp hs]
  by_cases ht : (takeOutcome outcomes).1 = true
  · rw [if_pos ht]
    rfl
  · rw [if_neg ht]
    rfl

/-- Whatever the handler outcomes, the first entry handed out by
`forceNext` is the head of the sorted wait list. -/
theorem forceNext_played_head (outcomes : List Bool) (s : MQ) (msg : QueuedMessage)
    (rest : List QueuedMessage) (hs : sortQ s.queue = msg :: rest) :
    (forceNext outcomes s).played.head? = some msg := by
  unfold forceNext
  split
  · rename_i heq
    rw [hs] at heq
    exact List.noConfusion heq
  · rename_i msg' rest' heq
    rw [hs] at heq
    obtain ⟨rfl, rfl⟩ := List.cons.injEq _ _ _ _ ▸ heq
    by_cases ht : (takeOutcome outcomes).1 = true
    · rw [if_pos ht]
      rfl
    · rw [if_neg ht]
      rfl

end MessageQueue

section ClaimsQueue

open MessageQueue

/-- C5: with the wait list already holding `MAX_QUEUE_SIZE` (5) or more
entries, a `Low` push is a complete no-op (state unchanged, no handler
call, no error), a `Normal` push is still admitted (its entry is
appended and conserved), and a `High` push is still admitted at the
front and is the first entry handed to the play handler; a `Low` push
below the bound is also admitted, so `Low` entries are only ever
dropped under the full-wait-list condition. -/
theorem C5_full_queue_drop_policy (outcomes : List Bool) (s : MQ) (msg : BubbleMessage) :
    (MAX_QUEUE_SIZE ≤ s.queue.length ∧ msg.priority = some .low →
      push outcomes s msg = ⟨s, [], outcomes⟩) ∧
    (msg.priority = some .normal →
      List.Perm ((push outcomes s msg).state.queue ++ (push outcomes s msg).played)
        (s.queue ++ [⟨msg.text, msg.duration.getD DEFAULT_DURATION, .normal⟩]) ∧
      (s.playing = true → push outcomes s msg =
        ⟨⟨s.queue ++ [⟨msg.text, msg.duration.getD DEFAULT_DURATION, .normal⟩], true⟩,
          [], outcomes⟩)) ∧
    (msg.priority = some .high →
      (push outcomes s msg).played.head? =
        some ⟨msg.text, msg.duration.getD DEFAULT_DURATION, .high⟩ ∧
      List.Perm ((push outcomes s msg).state.queue ++ (push outcomes s msg).played)
        (⟨msg.text, msg.duration.getD DEFAULT_DURATION, .high⟩ :: s.queue)) ∧
    (msg.priority = some .low ∧ s.queue.length < MAX_QUEUE_SIZE →
      List.Perm ((push outcomes s msg).state.queue ++ (push outcomes s msg).played)
        (s.queue ++ [⟨msg.text, msg.duration.getD DEFAULT_DURATION, .low⟩])) := by
  refine ⟨?_, ?_, ?_, ?_⟩
  · intro ⟨hfull, hlow⟩
    unfold push
    rw [hlow]
    simp only [Option.getD_some]
    rw [if_neg (fun hc => MessagePriority.noConfusion hc),
      if_pos ⟨hfull, trivial⟩]
  · intro hnorm
    have hpd : push outcomes s msg =
        if s.playing = true then
          ⟨⟨s.queue ++ [⟨msg.text, msg.duration.getD DEFAULT_DURATION, .normal⟩], true⟩,
            [], outcomes⟩
        else
          playNext outcomes
            ⟨s.queue ++ [⟨msg.text, msg.duration.getD DEFAULT_DURATION, .normal⟩], false⟩ := by
      unfold push
      rw [hnorm]
      simp only [Option.getD_some]
      rw [if_neg (fun hc => MessagePriority.noConfusion hc),
        if_neg (fun hc => MessagePriority.noConfusion hc.2)]
    rw [hpd]
    by_cases hp : s.playing = true
    · rw [if_pos hp]
      exact ⟨by simp, fun _ => rfl⟩
    · rw [if_neg hp]
      exact ⟨playNext_perm outcomes ⟨s.queue ++ [_], false⟩, fun hc => absurd hc hp⟩
  · intro hhigh
    have hpd : push outcomes s msg =
        if s.playing = true then
          forceNext outcomes
            ⟨⟨msg.text, msg.duration.getD DEFAULT_DURATION, .high⟩ :: s.queue, true⟩
        else
          playNext outcomes
            ⟨⟨msg.text, msg.duration.getD DEFAULT_DURATION, .high⟩ :: s.queue, false⟩ := by
      unfold push
      rw [hhigh]
      simp only [Option.getD_some]
      rw [if_pos trivial]
    rw [hpd]
    by_cases hp : s.playing = true
    · rw [if_pos hp]
      refine ⟨?_, ?_⟩
      · exact forceNext_played_head outcomes _ _ _ (sortQ_high_cons _ s.queue rfl)
      · exact forceNext_perm outcomes ⟨_ :: s.queue, true⟩
    · rw [if_neg hp]
      refine ⟨?_, ?_⟩
      · exact playNext_played_head outcomes _ _ _ rfl (sortQ_high_cons _ s.queue rfl)
      · exact playNext_perm outcomes ⟨_ :: s.queue, false⟩
  · intro ⟨hlow, hroom⟩
    have hpd : push outcomes s msg =
        if s.playing = true then
          ⟨⟨s.queue ++ [⟨msg.text, msg.duration.getD DEFAULT_DURATION, .low⟩], true⟩,
            [], outcomes⟩
        else
          playNext outcomes
            ⟨s.queue ++ [⟨msg.text, msg.duration.getD DEFAULT_DURATION, .low⟩], false⟩ := by
      unfold push
      rw [hlow]
      simp only [Option.getD_some]
      rw [if_neg (fun hc => MessagePriority.noConfusion hc),
        if_neg (fun hc => absurd hc.1 (by omega))]
    rw [hpd]
    by_cases hp : s.playing = true
    · rw [if_pos hp]
      simp
    · rw [if_neg hp]
      exact playNext_perm outcomes ⟨s.queue ++ [_], false⟩

/-- C6: when the queue selects the next entry (directly through
`playNext`, or through `done()`), the selected entry is the head of the
stable descending-weight sort of the wait list — an entry of maximal
priority weight preceded in arrival order only by strictly lighter
entries — and that head is removed while the rest becomes the new wait
list. -/
theorem C6_selection_stable_priority_order (outcomes : List Bool) (s : MQ)
    (hp : s.playing = false) (hq : s.queue ≠ []) :
    ∃ m rest, sortQ s.queue = m :: rest ∧
      (∃ l1 l2, s.queue = l1 ++ m :: l2 ∧
        ∀ x ∈ l1, PRIORITY_WEIGHT x.priority < PRIORITY_WEIGHT m.priority) ∧
      (∀ x ∈ s.queue, PRIORITY_WEIGHT x.priority ≤ PRIORITY_WEIGHT m.priority) ∧
      (playNext outcomes s).played.head? = some m ∧
      playNext (true :: outcomes) s = ⟨⟨rest, true⟩, [m], outcomes⟩ ∧
      (∀ b : Bool, done (true :: outcomes) ⟨s.queue, b⟩ = ⟨⟨rest, true⟩, [m], outcomes⟩) := by
  cases hs : sortQ s.queue with
  | nil => exact absurd ((sortQ_eq_nil_iff s.queue).mp hs) hq
  | cons m rest =>
    obtain ⟨hdec, hall⟩ := sortQ_head_spec s.queue m rest hs
    have hstep : playNext (true :: outcomes) s = ⟨⟨rest, true⟩, [m], outcomes⟩ := by
      rw [playNext_step (true :: outcomes) s m rest hp hs]
      rfl
    refine ⟨m, rest, rfl, hdec, hall, playNext_played_head outcomes s m rest hp hs,
      hstep, ?_⟩
    intro b
    unfold done
    rw [playNext_step (true :: outcomes) ⟨s.queue, false⟩ m rest rfl hs]
    rfl

/-- C7: when the play handler's promise rejects for the selected entry,
the queue clears its playing flag and immediately attempts the next
waiting entry (the run continues as `playNext` on the remainder with
the flag cleared); under persistent rejection the queue drains
completely instead of stalling, every entry being attempted in priority
order. -/
theorem C7_rejection_self_healing (outcomes : List Bool) (s : MQ)
    (hp : s.playing = false) (hq : s.queue ≠ []) :
    ∃ m rest, sortQ s.queue = m :: rest ∧
      playNext (false :: outcomes) s =
        ⟨(playNext outcomes ⟨rest, false⟩).state,
          m :: (playNext outcomes ⟨rest, false⟩).played,
          (playNext outcomes ⟨rest, false⟩).outcomes⟩ ∧
      (rest = [] → playNext (false :: outcomes) s = ⟨⟨[], false⟩, [m], outcomes⟩) ∧
      playNext (List.replicate s.queue.length false) s = ⟨⟨[], false⟩, m :: rest, []⟩ := by
  cases hs : sortQ s.queue with
  | nil => exact absurd ((sortQ_eq_nil_iff s.queue).mp hs) hq
  | cons m rest =>
    have hstep : playNext (false :: outcomes) s =
        ⟨(playNext outcomes ⟨rest, false⟩).state,
          m :: (playNext outcomes ⟨rest, false⟩).played,
          (playNext outcomes ⟨rest, false⟩).outcomes⟩ := by
      rw [playNext_step (false :: outcomes) s m rest hp hs]
      rfl
    refine ⟨m, rest, rfl, hstep, ?_, ?_⟩
    · intro hnil
      rw [hstep, hnil, playNext_of_guard outcomes ⟨[], false⟩ (Or.inr rfl)]
    · rw [playNext_all_reject s.queue.length s hp rfl, hs]

end ClaimsQueue

section ClaimsController

open MessageQueue BubbleManager

/-- C6 witness: the amended-free statement at a concrete three-entry
wait list; the selected entry is the first `normal` entry, not the
earlier-pushed `low` entry. -/
theorem C6_witness :
    ∃ m rest,
      sortQ [⟨"low1", 1000, .low⟩, ⟨"n1", 1000, .normal⟩, ⟨"n2", 1000, .normal⟩] =
        m :: rest ∧
      (∃ l1 l2,
        [(⟨"low1", 1000, .low⟩ : QueuedMessage), ⟨"n1", 1000, .normal⟩,
          ⟨"n2", 1000, .normal⟩] = l1 ++ m :: l2 ∧
        ∀ x ∈ l1, PRIORITY_WEIGHT x.priority < PRIORITY_WEIGHT m.priority) ∧
      (∀ x ∈ [(⟨"low1", 1000, .low⟩ : QueuedMessage), ⟨"n1", 1000, .normal⟩,
          ⟨"n2", 1000, .normal⟩],
        PRIORITY_WEIGHT x.priority ≤ PRIORITY_WEIGHT m.priority) ∧
      (playNext [] ⟨[⟨"low1", 1000, .low⟩, ⟨"n1", 1000, .normal⟩,
        ⟨"n2", 1000, .normal⟩], false⟩).played.head? = some m ∧
      playNext [true] ⟨[⟨"low1", 1000, .low⟩, ⟨"n1", 1000, .normal⟩,
        ⟨"n2", 1000, .normal⟩], false⟩ = ⟨⟨rest, true⟩, [m], []⟩ ∧
      (∀ b : Bool, done [true] ⟨[⟨"low1", 1000, .low⟩, ⟨"n1", 1000, .normal⟩,
        ⟨"n2", 1000, .normal⟩], b⟩ = ⟨⟨rest, true⟩, [m], []⟩) :=
  C6_selection_stable_priority_order []
    ⟨[⟨"low1", 1000, .low⟩, ⟨"n1", 1000, .normal⟩, ⟨"n2", 1000, .normal⟩], false⟩
    rfl (by decide)

/-- C7 witness: the rejection-recovery statement at a concrete
two-entry wait list. -/
theorem C7_witness :
    ∃ m rest,
      sortQ [⟨"a", 1, .normal⟩, ⟨"b", 1, .normal⟩] = m :: rest ∧
      playNext [false] ⟨[⟨"a", 1, .normal⟩, ⟨"b", 1, .normal⟩], false⟩ =
        ⟨(playNext [] ⟨rest, false⟩).state, m :: (playNext [] ⟨rest, false⟩).played,
          (playNext [] ⟨rest, false⟩).outcomes⟩ ∧
      (rest = [] →
        playNext [false] ⟨[⟨"a", 1, .normal⟩, ⟨"b", 1, .normal⟩], false⟩ =
          ⟨⟨[], false⟩, [m], []⟩) ∧
      playNext (List.replicate 2 false) ⟨[⟨"a", 1, .normal⟩, ⟨"b", 1, .normal⟩], false⟩ =
        ⟨⟨[], false⟩, m :: rest, []⟩ :=
  C7_rejection_self_healing [] ⟨[⟨"a", 1, .normal⟩, ⟨"b", 1, .normal⟩], false⟩
    rfl (by decide)

/-- C2: each display session resolves exactly once.  `displayMessage`
mints a non-empty identity, stores it in `currentMessageId` and arms
the fallback timer with it; the timer path and the acknowledgment path
run the same resolution; the first resolution calls `done()` exactly
once and permanently retires the identity — afterwards neither
`currentMessageId` nor the pending timer carries it — so the second
same-identity path is a strict no-op. -/
theorem C2_single_resolution_per_session (s : Sys) (msg : QueuedMessage)
    (hb : s.bubbleWin = true) :
    (displayMessage s msg).currentMessageId = mintId (s.messageSeq + 1) ∧
    mintId (s.messageSeq + 1) ≠ "" ∧
    (displayMessage s msg).hideTimer = some (mintId (s.messageSeq + 1)) ∧
    timerFire (displayMessage s msg) =
      onBubbleDismissed (displayMessage s msg) (mintId (s.messageSeq + 1)) ∧
    (onBubbleDismissed (displayMessage s msg) (mintId (s.messageSeq + 1))).doneCalls =
      (displayMessage s msg).doneCalls + 1 ∧
    (onBubbleDismissed (displayMessage s msg) (mintId (s.messageSeq + 1))).currentMessageId ≠
      mintId (s.messageSeq + 1) ∧
    (onBubbleDismissed (displayMessage s msg) (mintId (s.messageSeq + 1))).hideTimer ≠
      some (mintId (s.messageSeq + 1)) ∧
    onBubbleDismissed
        (onBubbleDismissed (displayMessage s msg) (mintId (s.messageSeq + 1)))
        (mintId (s.messageSeq + 1)) =
      onBubbleDismissed (displayMessage s msg) (mintId (s.messageSeq + 1)) := by
  have hspec := displayMessage_spec s msg hb
  have h1 : (displayMessage s msg).currentMessageId = mintId (s.messageSeq + 1) := by
    rw [hspec]
  have h2 : mintId (s.messageSeq + 1) ≠ "" := mintId_ne_empty _
  have h3 : (displayMessage s msg).hideTimer = some (mintId (s.messageSeq + 1)) := by
    rw [hspec]
  have hseq : (displayMessage s msg).messageSeq = s.messageSeq + 1 := by rw [hspec]
  have honce := onBubbleDismissed_accept_once (displayMessage s msg)
    (s.messageSeq + 1) (by rw [hseq]) h2 h1.symm
  refine ⟨h1, h2, h3, ?_, honce.1, honce.2.1, honce.2.2, ?_⟩
  · unfold timerFire
    rw [h3]
  · exact onBubbleDismissed_noop _ _ (Or.inr (Ne.symm honce.2.1))

/-- C2 witness: the single-resolution statement at the freshly
initialized controller displaying one message. -/
theorem C2_witness :
    onBubbleDismissed
        (onBubbleDismissed (displayMessage initialized ⟨"hi", 3000, .normal⟩) (mintId 1))
        (mintId 1) =
      onBubbleDismissed (displayMessage initialized ⟨"hi", 3000, .normal⟩) (mintId 1) :=
  (C2_single_resolution_per_session initialized ⟨"hi", 3000, .normal⟩ rfl).2.2.2.2.2.2.2

/-- C10: message identities are globally fresh within one manager:
`displayMessage` strictly increments the counter and mints
`bubble-${counter}`, and distinct counter values always mint distinct
identity strings, so the fresh identity differs from the identity of
every earlier session (any `mintId k` with `k ≤ messageSeq`). -/
theorem C10_fresh_message_identity (s : Sys) (msg : QueuedMessage) (k : Nat)
    (hb : s.bubbleWin = true) (hk : k ≤ s.messageSeq) :
    (displayMessage s msg).messageSeq = s.messageSeq + 1 ∧
    (displayMessage s msg).currentMessageId = mintId (s.messageSeq + 1) ∧
    (displayMessage s msg).currentMessageId ≠ mintId k ∧
    (∀ a b : Nat, a ≠ b → mintId a ≠ mintId b) := by
  have hspec := displayMessage_spec s msg hb
  refine ⟨by rw [hspec], by rw [hspec], ?_, ?_⟩
  · rw [hspec]
    intro hc
    have hck := mintId_inj _ _ hc
    omega
  · intro a b hab hc
    exact hab (mintId_inj a b hc)

/-- C10 witness: the freshness statement after one completed session
(counter at 1): the next session's identity differs from `bubble-1`. -/
theorem C10_witness :
    (displayMessage (pushSys initialized ⟨"a", some 500, none⟩)
      ⟨"b", 3000, .normal⟩).currentMessageId ≠ mintId 1 :=
  (C10_fresh_message_identity (pushSys initialized ⟨"a", some 500, none⟩)
    ⟨"b", 3000, .normal⟩ 1 (by decide) (by decide)).2.2.1

/-- C8: a `High` push while a session with identity `mintId k` is
playing immediately pre-empts: the high entry is shown at push time
(appended to the `bubble:show` trace with the freshly minted identity)
while every previously waiting entry is still waiting; the superseded
session's stale acknowledgment is absorbed by the identity filter; the
high message's own dismissal advances the queue exactly once and is
inert the second time. -/
theorem C8_high_preemption (s : Sys) (msg : BubbleMessage) (k : Nat)
    (hp : s.playing = true) (hb : s.bubbleWin = true)
    (hpri : msg.priority = some .high)
    (hcur : s.currentMessageId = mintId k) (hk : k ≤ s.messageSeq) :
    (pushSys s msg).shown = s.shown ++ [(mintId (s.messageSeq + 1), msg.text)] ∧
    (pushSys s msg).currentMessageId = mintId (s.messageSeq + 1) ∧
    List.Perm (pushSys s msg).queue s.queue ∧
    (pushSys s msg).doneCalls = s.doneCalls ∧
    onBubbleDismissed (pushSys s msg) (mintId k) = pushSys s msg ∧
    (onBubbleDismissed (pushSys s msg) (mintId (s.messageSeq + 1))).doneCalls =
      s.doneCalls + 1 ∧
    onBubbleDismissed
        (onBubbleDismissed (pushSys s msg) (mintId (s.messageSeq + 1)))
        (mintId (s.messageSeq + 1)) =
      onBubbleDismissed (pushSys s msg) (mintId (s.messageSeq + 1)) := by
  have hqd : pushSys s msg =
      displayMessage { s with queue := sortQ s.queue, playing := true }
        ⟨msg.text, msg.duration.getD DEFAULT_DURATION, .high⟩ := by
    unfold pushSys
    rw [hpri]
    simp only [Option.getD_some]
    rw [if_pos trivial, if_pos hp]
    unfold forceNextSys
    dsimp only
    rw [sortQ_high_cons _ s.queue rfl]
  have hspec := displayMessage_spec { s with queue := sortQ s.queue, playing := true }
    ⟨msg.text, msg.duration.getD DEFAULT_DURATION, .high⟩ hb
  have hpush := hqd.trans hspec
  have hid : (pushSys s msg).currentMessageId = mintId (s.messageSeq + 1) := by
    rw [hpush]
  have hseq : (pushSys s msg).messageSeq = s.messageSeq + 1 := by rw [hpush]
  have hdc : (pushSys s msg).doneCalls = s.doneCalls := by rw [hpush]
  have honce := onBubbleDismissed_accept_once (pushSys s msg) (s.messageSeq + 1)
    (by rw [hseq]) (mintId_ne_empty _) hid.symm
  refine ⟨by rw [hpush], hid, ?_, hdc, ?_, ?_, ?_⟩
  · rw [hpush]
    exact sortQ_perm s.queue
  · refine onBubbleDismissed_noop _ _ (Or.inr ?_)
    rw [hid]
    intro hc
    have hck := mintId_inj _ _ hc
    omega
  · rw [honce.1, hdc]
  · exact onBubbleDismissed_noop _ _ (Or.inr (Ne.symm honce.2.1))

/-- C8 witness: the pre-emption statement where a `normal` session
(identity `bubble-1`) is playing and an urgent `high` message arrives. -/
theorem C8_witness :
    onBubbleDismissed
        (pushSys (pushSys initialized ⟨"normal-1", some 500, none⟩)
          ⟨"urgent", some 500, some .high⟩) (mintId 1) =
      pushSys (pushSys initialized ⟨"normal-1", some 500, none⟩)
        ⟨"urgent", some 500, some .high⟩ :=
  (C8_high_preemption (pushSys initialized ⟨"normal-1", some 500, none⟩)
    ⟨"urgent", some 500, some .high⟩ 1 (by decide) (by decide) rfl (by decide)
    (by decide)).2.2.2.2.1

end ClaimsController

end BirdPet
